import Mathlib

/-!
Verification development for the attention core of `omegafold/modules.py`.

The Python source computes with floating-point tensors; here every scalar is
an exact rational (`ℚ`) and the transcendental primitives of the numeric
library (`torch.exp`, the square root used by normalization) are abstracted
as explicit function parameters.  Theorems that depend on genuine properties
of the real exponential take those properties (positivity, the homomorphism
`exp (x + y) = exp x * exp y`) as hypotheses.

Tensors are modelled at the granularity each claim needs:
* 1-D slices along the softmax axis are `Row := List ℚ`, stacks of such
  slices are `Mat := List Row`; this models `softmax`, `_attention` and the
  chunked `attention` of lines 39-138 of `modules.py`.
* a small buffer store (`Store`) makes the destructive writes of the
  in-place softmax and of the chunked-attention output buffers explicit, to
  state frame properties;
* shape-level semantics (`List ℕ` shapes with `Except` for the runtime
  shape errors raised by torch) model `Attention.forward` and
  `AttentionWEdgeBias.forward`;
* `Fin`-indexed functions model `GeometricAttention.forward` at value level.
-/

namespace OmegaFold

/-- One 1-D slice of a tensor along the axis being reduced / normalized. -/
abbrev Row := List ℚ

/-- A stack of 1-D slices: a 2-D tensor (or a higher tensor with its leading
axes flattened away, which is sound because every operation modelled on
`Mat` acts independently on each trailing 2-D slice). -/
abbrev Mat := List Row

/-- Elementwise addition of two rows (`torch` `+` on equally-shaped slices). -/
def vadd (a b : Row) : Row := List.zipWith (· + ·) a b

/-- Dot product of two rows (the contraction `...d, ...d ->` of `einsum`). -/
def dot (a b : Row) : ℚ := (List.zipWith (· * ·) a b).sum

/-- Maximum of a row, as computed by `torch.max(x, dim=dim)` (line 59);
only ever used on nonempty rows, where the default is irrelevant. -/
def rowMax (l : Row) : ℚ := l.foldr max (l.headD 0)

/-- Division of a row by its own sum (the final `x /= summed` of the
in-place softmax, line 63, and the normalization inside `torch.softmax`). -/
def normRow (e : Row) : Row := e.map (fun v => v / e.sum)

/-- Lines 58-64 of `modules.py`: the `in_place=True` branch of `softmax`.
Per slice along `dim`: subtract the slice maximum, exponentiate, divide by
the slice sum.  `rexp` abstracts `torch.exp`. -/
def softmaxIP (rexp : ℚ → ℚ) (x : Row) : Row :=
  normRow (x.map (fun v => rexp (v - rowMax x)))

/-- Line 66 of `modules.py`: `torch.softmax`, whose mathematical value on a
slice is `exp xᵢ / Σⱼ exp xⱼ`. -/
def softmaxPlain (rexp : ℚ → ℚ) (x : Row) : Row :=
  normRow (x.map rexp)

/-- Lines 39-66 of `modules.py`: `softmax(x, dim, in_place)` on one slice
along `dim`. -/
def softmax (rexp : ℚ → ℚ) (inPlace : Bool) (x : Row) : Row :=
  if inPlace then softmaxIP rexp x else softmaxPlain rexp x

/-- `softmax(x, dim, in_place)` on a whole tensor, presented as the list of
its 1-D slices along `dim` (the normalization acts independently on each
slice). -/
def softmaxMat (rexp : ℚ → ℚ) (inPlace : Bool) (x : Mat) : Mat :=
  x.map (softmax rexp inPlace)

/-- One row of the contraction `einsum("...ij, ...jd -> ...id", a, value)`:
`out d = Σⱼ a j * value j d`, computed as the sum of the value rows scaled
by the attention weights. -/
def matMulRow (a : Row) (value : Mat) : Row :=
  (List.zipWith (fun w v => v.map (w * ·)) a value).foldr vadd
    (List.replicate (value.headD []).length 0)

/-- Broadcast addition `logits + bias` along the query axis, as torch
broadcasts it for the shapes that occur in `attention`: a single bias row is
broadcast to every logits row, otherwise rows are added pairwise. -/
def addBias (logits bias : Mat) : Mat :=
  match bias with
  | [b] => logits.map (fun r => vadd r b)
  | _ => List.zipWith vadd logits bias

/-- The logits row produced by `_attention` for a single query row:
`einsum("...id, ...jd -> ...ij", query * scale, key)` restricted to one `i`. -/
def logitsRow (key : Mat) (scale : ℚ) (q : Row) : Row :=
  key.map (fun k => dot (q.map (· * scale)) k)

/-- The post-softmax attention row of `_attention` for one query row and its
bias row. -/
def attnRow (rexp : ℚ → ℚ) (key : Mat) (scale : ℚ) (q b : Row) : Row :=
  softmax rexp true (vadd (logitsRow key scale q) b)

/-- The output row of `_attention` for one query row and its bias row. -/
def outRow (rexp : ℚ → ℚ) (key : Mat) (scale : ℚ) (value : Mat) (q b : Row) :
    Row :=
  matMulRow (attnRow rexp key scale q b) value

/-- Lines 69-92 of `modules.py`: `_attention(query, key, scale, value, bias)`.
`logits = einsum("...id, ...jd -> ...ij", query * scale, key)` (one row per
query row, `logitsRow`), `attn = softmax(logits + bias, dim=-1,
in_place=True)`, `out = einsum("...ij, ...jd -> ...id", attn, value)`. -/
def _attention (rexp : ℚ → ℚ) (query key : Mat) (scale : ℚ) (value : Mat)
    (bias : Mat) : Mat × Mat :=
  ((softmaxMat rexp true (addBias (query.map (logitsRow key scale)) bias)).map
      (fun a => matMulRow a value),
   softmaxMat rexp true (addBias (query.map (logitsRow key scale)) bias))

/-- Pairwise concatenation of `(output, weights)` chunk results: the model
of writing consecutive chunk results into the two pre-allocated buffers. -/
def pairAppend (x y : Mat × Mat) : Mat × Mat := (x.1 ++ y.1, x.2 ++ y.2)

/-- Line 118 of `modules.py`: `subbatch_size = subbatch_size or q_length`.
Python's `or` replaces both `None` and `0` by `q_length`. -/
def splitSize (subbatch : Option ℤ) (qLength : ℕ) : ℤ :=
  match subbatch with
  | none => qLength
  | some v => if v = 0 then (qLength : ℤ) else v

/-- Lines 127-136 of `modules.py`: the chunk loop of `attention`.  Chunk `i`
is `query[i*c:(i+1)*c]`; the bias is sliced alongside exactly when its
query-length dimension equals the full `q_length` (line 129), else the whole
bias is reused for every chunk.  Writing the per-chunk results into the
pre-allocated buffers at offsets `start:end` is modelled as concatenation
(each chunk contributes exactly one output row per query row).  The `fuel`
argument bounds the number of iterations by the number of query rows, which
suffices whenever the chunk size is positive; the loop is never entered with
a zero chunk size and a nonempty query (see `attention`). -/
def attentionLoop (rexp : ℚ → ℚ) (key : Mat) (scale : ℚ) (value : Mat)
    (c : ℕ) (sliceBias : Bool) : ℕ → Mat → Mat → Mat × Mat
  | 0, _, _ => ([], [])
  | fuel + 1, query, bias =>
    if query.isEmpty ∨ c = 0 then ([], [])
    else
      pairAppend
        (_attention rexp (query.take c) key scale value
          (cond sliceBias (bias.take c) bias))
        (attentionLoop rexp key scale value c sliceBias
          fuel (query.drop c) (cond sliceBias (bias.drop c) bias))

/-- Lines 95-138 of `modules.py`: `attention(query, key, scale, value, bias,
subbatch_size)`.  A negative split size makes `torch.split` raise (modelled
as `Except.error`); `None` and `0` silently become the full query length
(line 118, Python `or`). -/
def attention (rexp : ℚ → ℚ) (query key : Mat) (scale : ℚ) (value : Mat)
    (bias : Mat) (subbatch : Option ℤ) : Except String (Mat × Mat) :=
  if splitSize subbatch query.length < 0 then
    Except.error "split expects split_size be non-negative"
  else
    Except.ok (attentionLoop rexp key scale value
      (splitSize subbatch query.length).toNat
      (decide (bias.length = query.length)) query.length query bias)

/-! ### Buffer-store model of the in-place operations (claim C10)

The list model above is pure, so it cannot even express mutation of the
arguments.  To state the frame property of `attention` the destructive
operations of the source are replayed against an explicit heap of tensor
buffers. -/

/-- A heap of 2-D tensor buffers; a pointer is an index into the list. -/
abbrev Store := List Mat

/-- Read the buffer at pointer `p`. -/
def readB (σ : Store) (p : ℕ) : Mat := σ.getD p []

/-- Overwrite the whole buffer at pointer `p`. -/
def writeB (σ : Store) (p : ℕ) (m : Mat) : Store := σ.set p m

/-- Allocate a fresh buffer holding `m`; returns the new store and the fresh
pointer. -/
def allocB (σ : Store) (m : Mat) : Store × ℕ := (σ ++ [m], σ.length)

/-- The slice assignment `buf[..., start:end, :] = rows` of lines 135-136:
overwrite rows `start, ..., start + rows.length - 1` of the buffer at `p`. -/
def writeRows (σ : Store) (p : ℕ) (start : ℕ) (rows : Mat) : Store :=
  writeB σ p ((readB σ p).take start ++ rows
    ++ (readB σ p).drop (start + rows.length))

/-- Lines 58-64 of `modules.py` as destructive buffer updates: the
`in_place=True` softmax performs `torch.sub(x, max_val, out=x)`,
`torch.exp(x, out=x)` and `x /= summed` in sequence on the buffer at `p`
(per slice along the last axis). -/
def softmaxStore (rexp : ℚ → ℚ) (σ : Store) (p : ℕ) : Store :=
  let σ1 := writeB σ p
    ((readB σ p).map (fun r => r.map (fun v => v - rowMax r)))
  let σ2 := writeB σ1 p ((readB σ1 p).map (List.map rexp))
  writeB σ2 p ((readB σ2 p).map (fun r => r.map (fun v => v / r.sum)))

/-- One iteration of the chunk loop of `attention` (lines 127-136) on
stored buffers, with the `_attention` call of line 134 inlined: for the
chunk of query rows starting at `start`, compute the logits chunk, allocate
the fresh tensor `logits + bias` (line 90 creates a new tensor; only that
fresh buffer is then softmaxed destructively), and copy the chunk results
into the two pre-allocated result buffers `po` and `pl`. -/
def attentionStoreStep (rexp : ℚ → ℚ) (scale : ℚ) (c : ℕ)
    (pq pk pv pb po pl : ℕ) (σ : Store) (start : ℕ) : Store :=
  let al := allocB σ (addBias
    ((((readB σ pq).drop start).take c).map (logitsRow (readB σ pk) scale))
    (if (readB σ pb).length = (readB σ pq).length
      then ((readB σ pb).drop start).take c else readB σ pb))
  let σ2 := softmaxStore rexp al.1 al.2
  let σ3 := writeRows σ2 po start
    ((readB σ2 al.2).map (fun a => matMulRow a (readB σ2 pv)))
  writeRows σ3 pl start (readB σ2 al.2)

/-- The chunk loop of `attention` (lines 127-136) on stored buffers. -/
def attentionStoreLoop (rexp : ℚ → ℚ) (scale : ℚ) (c : ℕ)
    (pq pk pv pb po pl : ℕ) : ℕ → Store → ℕ → Store
  | 0, σ, _ => σ
  | fuel + 1, σ, start =>
    if (readB σ pq).length ≤ start ∨ c = 0 then σ
    else attentionStoreLoop rexp scale c pq pk pv pb po pl fuel
      (attentionStoreStep rexp scale c pq pk pv pb po pl σ start) (start + c)

/-- Lines 95-138 of `modules.py` on stored buffers: pre-allocate the
`output` and `logits` result buffers (lines 124-125; `torch.empty` contents
are unspecified and fully overwritten, modelled as zeros) and run the chunk
loop.  Returns the final store and the pointers of the two result buffers. -/
def attentionStore (rexp : ℚ → ℚ) (σ : Store) (pq pk pv pb : ℕ) (scale : ℚ)
    (subbatch : Option ℤ) : Except String (Store × ℕ × ℕ) :=
  if splitSize subbatch (readB σ pq).length < 0 then
    Except.error "split expects split_size be non-negative"
  else
    let alOut := allocB σ (List.replicate (readB σ pq).length
      (List.replicate ((readB σ pv).headD []).length 0))
    let alLogits := allocB alOut.1 (List.replicate (readB σ pq).length
      (List.replicate (readB σ pk).length 0))
    Except.ok
      (attentionStoreLoop rexp scale
        (splitSize subbatch (readB σ pq).length).toNat pq pk pv pb
        alOut.2 alLogits.2 (readB σ pq).length alLogits.1 0,
      alOut.2, alLogits.2)

/-! ### Shape-level semantics (claims C3, C9)

`Attention.forward` and `AttentionWEdgeBias.forward` are mostly tensor
plumbing whose claims are about shapes; they are modelled by shape
functions: a `Shape` is the list of dimension sizes (outermost first), and
every torch operation that can raise a runtime shape error returns
`Except`.  Helpers destructure `Shape.reverse` because torch indexes the
relevant axes from the end. -/

/-- A tensor shape: dimension sizes, outermost first. -/
abbrev Shape := List ℕ

/-- Right-aligned numpy/torch broadcasting on reversed shapes. -/
def broadcastRev : List ℕ → List ℕ → Except String (List ℕ)
  | [], ys => Except.ok ys
  | x :: xs, [] => Except.ok (x :: xs)
  | x :: xs, y :: ys =>
    match broadcastRev xs ys with
    | Except.error e => Except.error e
    | Except.ok rest =>
      if x = y then Except.ok (x :: rest)
      else if x = 1 then Except.ok (y :: rest)
      else if y = 1 then Except.ok (x :: rest)
      else Except.error "shapes are not broadcastable"

/-- Right-aligned broadcasting of two shapes. -/
def broadcastShapes (a b : Shape) : Except String Shape :=
  match broadcastRev a.reverse b.reverse with
  | Except.ok r => Except.ok r.reverse
  | Except.error e => Except.error e

/-- In-place addition `x += y` (or in-place multiplication): the broadcast
result must have exactly the shape of `x`, else torch raises. -/
def addInPlaceShape (x y : Shape) : Except String Shape :=
  match broadcastShapes x y with
  | Except.error e => Except.error e
  | Except.ok s => if s = x then Except.ok x else
      Except.error "result shape does not match in-place operand"

/-- Shape of `nn.Linear(inF, outF)` applied to `x`: the trailing feature
dimension must equal `inF` exactly. -/
def linearShape (inF outF : ℕ) (x : Shape) : Except String Shape :=
  match x.reverse with
  | d :: xb => if d = inF then Except.ok (xb.reverse ++ [outF])
      else Except.error "mat1 and mat2 shapes cannot be multiplied"
  | [] => Except.error "Dimension out of range"

/-- Shape of `.permute(2, 0, 1)` (line 485): requires exactly 3 axes. -/
def permute201 (x : Shape) : Except String Shape :=
  match x with
  | [a, b, c] => Except.ok [c, a, b]
  | _ => Except.error "number of dims don't match in permute"

/-- Shape of `.unsqueeze(-4)` (line 403): requires at least 3 axes. -/
def unsqueezeNeg4 (x : Shape) : Except String Shape :=
  match x.reverse with
  | d1 :: d2 :: d3 :: xb => Except.ok (xb.reverse ++ [1, d3, d2, d1])
  | _ => Except.error "Dimension out of range"

/-- Shape of `.squeeze(-1)`: drops the last axis when it has size 1. -/
def squeezeNeg1 (x : Shape) : Except String Shape :=
  match x.reverse with
  | d :: xb => Except.ok (if d = 1 then xb.reverse else x)
  | [] => Except.error "Dimension out of range"

/-- Shape of `.squeeze(-4)`: drops the fourth-from-last axis when it has
size 1; requires at least 4 axes. -/
def squeezeNeg4 (x : Shape) : Except String Shape :=
  match x.reverse with
  | d1 :: d2 :: d3 :: d4 :: xb =>
    Except.ok (if d4 = 1 then xb.reverse ++ [d3, d2, d1] else x)
  | _ => Except.error "Dimension out of range"

/-- Shape of `.transpose(-1, -4)` (line 437): requires at least 4 axes. -/
def transposeNeg14 (x : Shape) : Except String Shape :=
  match x.reverse with
  | d1 :: d2 :: d3 :: d4 :: xb => Except.ok (xb.reverse ++ [d1, d3, d2, d4])
  | _ => Except.error "Dimension out of range"

/-- Shape of `x.shape[-4]` (line 416). -/
def dimNeg4 (x : Shape) : Except String ℕ :=
  match x.reverse with
  | _ :: _ :: _ :: d4 :: _ => Except.ok d4
  | _ => Except.error "Dimension out of range"

/-- Shape of `einsum("...id, ...jd -> ...ij", x, y)` (line 89). -/
def einsum_id_jd (x y : Shape) : Except String Shape :=
  match x.reverse, y.reverse with
  | dx :: i :: xb, dy :: j :: yb =>
    if dx = dy then
      match broadcastRev xb yb with
      | Except.ok b => Except.ok (b.reverse ++ [i, j])
      | Except.error e => Except.error e
    else Except.error "einsum: contracted dimensions must match"
  | _, _ => Except.error "einsum: operand has too few dimensions"

/-- Shape of `einsum("...ij, ...jd -> ...id", x, y)` (line 91). -/
def einsum_ij_jd (x y : Shape) : Except String Shape :=
  match x.reverse, y.reverse with
  | j1 :: i :: xb, d :: j2 :: yb =>
    if j1 = j2 then
      match broadcastRev xb yb with
      | Except.ok b => Except.ok (b.reverse ++ [i, d])
      | Except.error e => Except.error e
    else Except.error "einsum: contracted dimensions must match"
  | _, _ => Except.error "einsum: operand has too few dimensions"

/-- Shape of `einsum("...qar, arhc -> ...rhqc", x, w)` (lines 405, 410)
with weight shape `[a, r, h, cc]`: the `a` and `r` axes of `x` must match
the weight exactly. -/
def einsum_qar_arhc (x : Shape) (a r h cc : ℕ) : Except String Shape :=
  match x.reverse with
  | r' :: a' :: q :: xb =>
    if a' = a ∧ r' = r then Except.ok (xb.reverse ++ [r, h, q, cc])
    else Except.error "einsum: dimensions do not match weights"
  | _ => Except.error "einsum: operand has too few dimensions"

/-- Shape of `einsum("...rhqc, rhco -> ...qor", x, w)` (line 432) with
weight shape `[r, h, cc, o]`. -/
def einsum_rhqc_rhco (x : Shape) (r h cc o : ℕ) : Except String Shape :=
  match x.reverse with
  | c' :: q :: h' :: r' :: xb =>
    if r' = r ∧ h' = h ∧ c' = cc then Except.ok (xb.reverse ++ [q, o, r])
    else Except.error "einsum: dimensions do not match weights"
  | _ => Except.error "einsum: operand has too few dimensions"

/-- Shape of `t.split(c, dim=-1)[i]` for the full-sized pieces used at
lines 407 and 412: the trailing axis is replaced by the piece width. -/
def splitLastShape (c : ℕ) (x : Shape) : Shape :=
  match x.reverse with
  | _ :: xb => xb.reverse ++ [c]
  | [] => []

/-- The chunk loop of `attention` (lines 127-136) at shape level: for each
chunk, the logits contraction, the broadcast `logits + bias` (slicing the
bias along its query axis exactly when that axis equals the full query
length, line 129), the value contraction, and the writes into the two
pre-allocated buffers (which require the chunk results to have exactly the
chunk's slice shape). -/
def attentionShapeLoop (key value bias batch : Shape)
    (qLength c dqk vDim kLen : ℕ) : ℕ → ℕ → Except String Unit
  | 0, _ => Except.ok ()
  | fuel + 1, start =>
    if qLength ≤ start ∨ c = 0 then Except.ok ()
    else
      match bias.reverse with
      | dbLast :: dbQ :: dbRest =>
        match einsum_id_jd (batch ++ [min c (qLength - start), dqk]) key with
        | Except.error e => Except.error e
        | Except.ok logitsI =>
          match broadcastShapes logitsI
            (if dbQ = qLength
              then dbRest.reverse ++ [min c (qLength - start), dbLast]
              else bias) with
          | Except.error e => Except.error e
          | Except.ok attnI =>
            match einsum_ij_jd attnI value with
            | Except.error e => Except.error e
            | Except.ok outI =>
              if outI = batch ++ [min c (qLength - start), vDim]
                  ∧ attnI = batch ++ [min c (qLength - start), kLen] then
                attentionShapeLoop key value bias batch qLength c dqk vDim
                  kLen fuel (start + c)
              else Except.error "shape mismatch writing chunk result"
      | _ => Except.error "Dimension out of range"

/-- Lines 95-138 of `modules.py` at shape level: `attention(query, key,
scale, value, bias, subbatch_size)` returns the shapes of `(output,
logits)`, the two buffers pre-allocated at lines 124-125. -/
def attentionShape (query key value bias : Shape) (subbatch : Option ℤ) :
    Except String (Shape × Shape) :=
  match query.reverse, key.reverse, value.reverse with
  | dqk :: qLen :: qb, _ :: kLen :: _, vDim :: _ =>
    if splitSize subbatch qLen < 0 then
      Except.error "split expects split_size be non-negative"
    else
      match attentionShapeLoop key value bias qb.reverse qLen
        (splitSize subbatch qLen).toNat dqk vDim kLen qLen 0 with
      | Except.ok _ =>
        Except.ok (qb.reverse ++ [qLen, vDim], qb.reverse ++ [qLen, kLen])
      | Except.error e => Except.error e
  | _, _, _ => Except.error "Dimension out of range"

/-- Lines 368-437 of `modules.py` at shape level: `Attention.forward` for a
module built with the given constructor parameters.  Mirrors, in order: the
auto-unsqueeze detection (lines 395-403), the query/gate and key/value
projections with their in-place bias adds (405-412), the subbatch choice
`q.shape[-4]` when `fwd_cfg` is `None` (415-417), the chunked attention
call (418-425), gating (428-430), the output projection and its in-place
bias add (432-433), the conditional re-squeeze (435-436), and the
`logits[..., None].transpose(-1, -4).squeeze(-4)` return path (437). -/
def Attention.forwardShape (q_dim kv_dim n_head : ℕ) (gating : Bool)
    (c out_dim n_axis : ℕ) (qInputs kvInputs bias : Shape)
    (fwdCfg : Option ℤ) : Except String (Shape × Shape) := do
  let tu : Bool := qInputs.getLastD 0 != n_axis && qInputs.getLastD 0 == q_dim
  let q1 := if tu then qInputs ++ [1] else qInputs
  let kv1 := if tu then kvInputs ++ [1] else kvInputs
  let b1 ← if tu then unsqueezeNeg4 bias else pure bias
  let qg0 ← einsum_qar_arhc q1 q_dim n_axis n_head ((cond gating 2 1) * c)
  let qg ← addInPlaceShape qg0 [n_axis, n_head, 1, (cond gating 2 1) * c]
  let q := splitLastShape c qg
  let kv0 ← einsum_qar_arhc kv1 kv_dim n_axis n_head (2 * c)
  let kv ← addInPlaceShape kv0 [n_axis, n_head, 1, 2 * c]
  let sb : ℤ ← match fwdCfg with
    | none => do
      let d ← dimNeg4 q
      pure (d : ℤ)
    | some s => pure s
  let res ← attentionShape q (splitLastShape c kv) (splitLastShape c kv)
    b1 (some sb)
  let attnOut ← if gating then addInPlaceShape res.1 (splitLastShape c qg)
    else pure res.1
  let out0 ← einsum_rhqc_rhco attnOut n_axis n_head c out_dim
  let out1 ← addInPlaceShape out0 [out_dim, n_axis]
  let out2 ← if tu then squeezeNeg1 out1 else pure out1
  let logits2 ← if tu then squeezeNeg4 res.2 else pure res.2
  let w1 ← transposeNeg14 (logits2 ++ [1])
  let w2 ← squeezeNeg4 w1
  pure (out2, w2)

/-- Lines 463-491 of `modules.py` at shape level:
`AttentionWEdgeBias.forward` for a module built with
`q_dim = kv_dim = out_dim = d_node` and `n_axis = 1` (lines 453-461).
Normalization (lines 482-483) is shape-preserving; line 485 projects the
edge features to `n_head` channels and permutes with `permute(2, 0, 1)`;
line 487 adds the mask bias `mask[..., None, None, :]`; line 488 invokes
the attention module; only the attended output is returned. -/
def AttentionWEdgeBias.forwardShape (d_node d_edge n_head : ℕ)
    (attn_gating : Bool) (attn_c : ℕ) (node edge mask : Shape)
    (fwdCfg : Option ℤ) : Except String Shape := do
  let eb0 ← linearShape d_edge n_head edge
  let eb ← permute201 eb0
  let bias ← broadcastShapes eb (mask.dropLast ++ [1, 1, mask.getLastD 0])
  let res ← Attention.forwardShape d_node d_node n_head attn_gating attn_c
    d_node 1 node node bias fwdCfg
  pure res.1

/-! ### Value-level model of the composite attention modules (C4, C5, C8)

Tensors of fixed rank are `Fin`-indexed functions into `ℚ`; contractions
are finite sums.  `rexp` abstracts `torch.exp` and `rsqrt` abstracts the
real square root (used by the spec-modelled normalization and by the
attention scale `c ** (-0.5)`, which is irrational and therefore kept
symbolic as `(rsqrt c)⁻¹`).  The chunked attention primitive is
value-transparent (`attention_chunk_invariant`), so the attention here is
written as the one-pass computation. -/

/-- `torch.sigmoid`: `1 / (1 + exp (-x))`. -/
def sigmoid (rexp : ℚ → ℚ) (x : ℚ) : ℚ := 1 / (1 + rexp (-x))

/-- Mean over the trailing feature axis. -/
def meanF {d : ℕ} (x : Fin d → ℚ) : ℚ := (∑ j, x j) / d

/-- Population variance over the trailing feature axis. -/
def varF {d : ℕ} (x : Fin d → ℚ) : ℚ := (∑ j, (x j - meanF x) ^ 2) / d

/-- Modelled from the spec: `utils.normalize` (§4.6), whose code is not
under `src/` — "standard mean/variance normalization over the trailing
feature axis ... mean subtracted, divided by standard deviation plus a
small epsilon".  `rsqrt` abstracts the square root. -/
def normalizeF (rsqrt : ℚ → ℚ) (eps : ℚ) {d : ℕ} (x : Fin d → ℚ) :
    Fin d → ℚ :=
  fun i => (x i - meanF x) / (rsqrt (varF x) + eps)

/-- Modelled from the spec: `utils.mask2bias` (§4.6), whose code is not
under `src/` — "maps 1 → 0 and 0 → (large negative constant, e.g. −1e9)". -/
def mask2bias (m : ℚ) : ℚ := if m = 1 then 0 else -(10 ^ 9 : ℚ)

/-- Maximum of the values of `f` (`torch.max` along the softmax axis). -/
def maxF {n : ℕ} (f : Fin n → ℚ) : ℚ := rowMax (List.ofFn f)

/-- The in-place softmax of lines 58-64 on one slice along the softmax
axis, as a `Fin`-indexed function. -/
def softmaxF (rexp : ℚ → ℚ) {n : ℕ} (f : Fin n → ℚ) : Fin n → ℚ :=
  fun k => rexp (f k - maxF f) / ∑ j, rexp (f j - maxF f)

/-- The learned parameters of `Attention` (lines 354-366), with the
concatenated projection weights stored as their split halves: `wq`/`wg` are
the two width-`c` column blocks of `qg_weights` (queries and gates, line
407) and `wk`/`wv` the two blocks of `kv_weights` (line 412); likewise for
the biases.  `wo`/`ob` are the output projection (lines 365-366). -/
structure AttentionParams (qd kd R H c od : ℕ) where
  wq : Fin qd → Fin R → Fin H → Fin c → ℚ
  wg : Fin qd → Fin R → Fin H → Fin c → ℚ
  bq : Fin R → Fin H → Fin c → ℚ
  bg : Fin R → Fin H → Fin c → ℚ
  wk : Fin kd → Fin R → Fin H → Fin c → ℚ
  wv : Fin kd → Fin R → Fin H → Fin c → ℚ
  bk : Fin R → Fin H → Fin c → ℚ
  bv : Fin R → Fin H → Fin c → ℚ
  wo : Fin R → Fin H → Fin c → Fin od → ℚ
  ob : Fin od → Fin R → ℚ

/-- Lines 368-437 of `modules.py` (`Attention.forward`) at value level, for
inputs that carry the track axis, over an arbitrary leading batch index
`ι` (the `...` of the einsums).  Returns the output in the
`...qor` layout of line 432 and the attention weights in the
`(..., r, h, q, k)` layout produced by `attention`; the squeeze/transpose
return path of lines 435-437 is applied by the callers as reindexing.
The chunked `attention` call of lines 418-425 is written as its one-pass
value (justified by `attention_chunk_invariant`), with the in-place softmax
of line 90 as `softmaxF`. -/
def attnCore (rexp : ℚ → ℚ) (scale : ℚ) {ι : Type}
    {qlen klen qd kd R H c od : ℕ}
    (P : AttentionParams qd kd R H c od) (gating : Bool)
    (qin : ι → Fin qlen → Fin qd → Fin R → ℚ)
    (kvin : ι → Fin klen → Fin kd → Fin R → ℚ)
    (bias : Fin R → Fin H → Fin qlen → Fin klen → ℚ) :
    (ι → Fin qlen → Fin od → Fin R → ℚ)
      × (ι → Fin R → Fin H → Fin qlen → Fin klen → ℚ) :=
  let q := fun (i : ι) (r : Fin R) (h : Fin H) (j : Fin qlen) (cc : Fin c) =>
    (∑ a, qin i j a r * P.wq a r h cc) + P.bq r h cc
  let gate := fun (i : ι) (r : Fin R) (h : Fin H) (j : Fin qlen)
      (cc : Fin c) => (∑ a, qin i j a r * P.wg a r h cc) + P.bg r h cc
  let k := fun (i : ι) (r : Fin R) (h : Fin H) (j : Fin klen) (cc : Fin c) =>
    (∑ a, kvin i j a r * P.wk a r h cc) + P.bk r h cc
  let v := fun (i : ι) (r : Fin R) (h : Fin H) (j : Fin klen) (cc : Fin c) =>
    (∑ a, kvin i j a r * P.wv a r h cc) + P.bv r h cc
  let attnW := fun (i : ι) (r : Fin R) (h : Fin H) (jq : Fin qlen) =>
    softmaxF rexp
      (fun jk => (∑ cc, q i r h jq cc * scale * k i r h jk cc)
        + bias r h jq jk)
  let ao := fun (i : ι) (r : Fin R) (h : Fin H) (jq : Fin qlen)
      (cc : Fin c) =>
    (∑ jk, attnW i r h jq jk * v i r h jk cc)
      * (cond gating (sigmoid rexp (gate i r h jq cc)) 1)
  (fun i jq o r => (∑ h, ∑ cc, ao i r h jq cc * P.wo r h cc o) + P.ob o r,
   fun i r h jq jk => attnW i r h jq jk)

/-- The learned parameters of `GeometricAttention` (lines 495-524):
`lbw`/`lbb` are `linear_b_weights`/`linear_b_bias`; `w1 ... w5` are the
five `d_edge`-wide column blocks of `act_w` (GLU left half, GLU right
half, the two GLU gate blocks, and the output gate `g` of line 543), with
`b1 ... b5` the matching blocks of `act_b`; `opw`/`opb` are
`out_proj_w`/`out_proj_b`; `ap` the inner `Attention` (2 tracks, gated). -/
structure GeomAttnParams (D H c : ℕ) where
  lbw : Fin D → Fin 2 → Fin H → ℚ
  lbb : Fin 2 → Fin H → ℚ
  w1 : Fin D → Fin 2 → Fin D → ℚ
  w2 : Fin D → Fin 2 → Fin D → ℚ
  w3 : Fin D → Fin 2 → Fin D → ℚ
  w4 : Fin D → Fin 2 → Fin D → ℚ
  w5 : Fin D → Fin 2 → Fin D → ℚ
  b1 : Fin 2 → Fin D → ℚ
  b2 : Fin 2 → Fin D → ℚ
  b3 : Fin 2 → Fin D → ℚ
  b4 : Fin 2 → Fin D → ℚ
  b5 : Fin 2 → Fin D → ℚ
  opw : Fin 2 → Fin D → Fin D → ℚ
  opb : Fin 2 → Fin D → ℚ
  ap : AttentionParams D D 2 H c D

/-- Lines 529-532 of `modules.py`: normalize the edge features and stack
them with their transpose over the two pairwise index axes into a 2-track
tensor (track 0 = original orientation, track 1 = transposed). -/
def edgeStack (rsqrt : ℚ → ℚ) (eps : ℚ) {L D : ℕ}
    (edge_repr : Fin L → Fin L → Fin D → ℚ) :
    Fin L → Fin L → Fin D → Fin 2 → ℚ :=
  fun i j d r =>
    if r = 0 then normalizeF rsqrt eps (edge_repr i j) d
    else normalizeF rsqrt eps (edge_repr j i) d

/-- Lines 526-562 of `modules.py`: `GeometricAttention.forward` at value
level (unbatched edge tensor `(L, L, d_edge)` and mask `(L)`).  In order:
the stack (529-532), the attention bias `b` (534-537), the gated 2-track
attention (538) with scale `c ** (-0.5)` kept symbolic as `(rsqrt c)⁻¹`,
the five-block activation projection (540-543), the GLU (545), the mask
(546-547), the outer-product contraction (549-552), normalization and
output projection (553-556), the sigmoid gate (557), and the fusion
(559-560). -/
def GeometricAttention.forward (rexp rsqrt : ℚ → ℚ) (eps : ℚ)
    {L D H c : ℕ} (P : GeomAttnParams D H c)
    (edge_repr : Fin L → Fin L → Fin D → ℚ) (mask : Fin L → ℚ) :
    Fin L → Fin L → Fin D → ℚ :=
  let X := edgeStack rsqrt eps edge_repr
  let b := fun (r : Fin 2) (h : Fin H) (qq kk : Fin L) =>
    (∑ cd, X qq kk cd r * P.lbw cd r h) + P.lbb r h + mask2bias (mask kk)
  let attended := (attnCore rexp (rsqrt (c : ℚ))⁻¹ P.ap true X X b).1
  let em := fun (i j : Fin L) => mask j * mask i
  let a1 := fun (i j : Fin L) (r : Fin 2) (d : Fin D) =>
    (∑ cd, X i j cd r * P.w1 cd r d) + P.b1 r d
  let a2 := fun (i j : Fin L) (r : Fin 2) (d : Fin D) =>
    (∑ cd, X i j cd r * P.w2 cd r d) + P.b2 r d
  let a3 := fun (i j : Fin L) (r : Fin 2) (d : Fin D) =>
    (∑ cd, X i j cd r * P.w3 cd r d) + P.b3 r d
  let a4 := fun (i j : Fin L) (r : Fin 2) (d : Fin D) =>
    (∑ cd, X i j cd r * P.w4 cd r d) + P.b4 r d
  let gch := fun (i j : Fin L) (r : Fin 2) (d : Fin D) =>
    (∑ cd, X i j cd r * P.w5 cd r d) + P.b5 r d
  let lh := fun (i j : Fin L) (r : Fin 2) (d : Fin D) =>
    a1 i j r d * sigmoid rexp (a3 i j r d) * em i j
  let rh := fun (i j : Fin L) (r : Fin 2) (d : Fin D) =>
    a2 i j r d * sigmoid rexp (a4 i j r d) * em i j
  let ab := fun (i j : Fin L) (r : Fin 2) (d : Fin D) =>
    ∑ kk, lh i kk r d * rh j kk r d
  let abN := fun (i j : Fin L) (r : Fin 2) =>
    normalizeF rsqrt eps (fun d => ab i j r d)
  let abP := fun (i j : Fin L) (r : Fin 2) (d : Fin D) =>
    (∑ dd, abN i j r dd * P.opw r dd d) + P.opb r d
  let gated := fun (i j : Fin L) (r : Fin 2) (d : Fin D) =>
    abP i j r d * sigmoid rexp (gch i j r d)
  fun i j d => gated i j 0 d + gated i j 1 d
    + attended i j d 0 + attended j i d 1

/-- The gated outer-product result of a single track `t` (spec §4.5 steps
3-4), computed stand-alone with the track-`t` parameters. -/
def gatedOuterTrack (rexp rsqrt : ℚ → ℚ) (eps : ℚ) {L D H c : ℕ}
    (P : GeomAttnParams D H c) (edge_repr : Fin L → Fin L → Fin D → ℚ)
    (mask : Fin L → ℚ) (t : Fin 2) : Fin L → Fin L → Fin D → ℚ :=
  let X := fun (i j : Fin L) (d : Fin D) => edgeStack rsqrt eps edge_repr i j d t
  let em := fun (i j : Fin L) => mask j * mask i
  let a1 := fun (i j : Fin L) (d : Fin D) =>
    (∑ cd, X i j cd * P.w1 cd t d) + P.b1 t d
  let a2 := fun (i j : Fin L) (d : Fin D) =>
    (∑ cd, X i j cd * P.w2 cd t d) + P.b2 t d
  let a3 := fun (i j : Fin L) (d : Fin D) =>
    (∑ cd, X i j cd * P.w3 cd t d) + P.b3 t d
  let a4 := fun (i j : Fin L) (d : Fin D) =>
    (∑ cd, X i j cd * P.w4 cd t d) + P.b4 t d
  let gch := fun (i j : Fin L) (d : Fin D) =>
    (∑ cd, X i j cd * P.w5 cd t d) + P.b5 t d
  let lh := fun (i j : Fin L) (d : Fin D) =>
    a1 i j d * sigmoid rexp (a3 i j d) * em i j
  let rh := fun (i j : Fin L) (d : Fin D) =>
    a2 i j d * sigmoid rexp (a4 i j d) * em i j
  let ab := fun (i j : Fin L) (d : Fin D) => ∑ kk, lh i kk d * rh j kk d
  let abN := fun (i j : Fin L) => normalizeF rsqrt eps (fun d => ab i j d)
  let abP := fun (i j : Fin L) (d : Fin D) =>
    (∑ dd, abN i j dd * P.opw t dd d) + P.opb t d
  fun i j d => abP i j d * sigmoid rexp (gch i j d)

/-- The attended (multi-head attention) result of a single track `t` (spec
§4.5 step 2), computed stand-alone with the track-`t` parameters. -/
def attendedTrack (rexp rsqrt : ℚ → ℚ) (eps : ℚ) {L D H c : ℕ}
    (P : GeomAttnParams D H c) (edge_repr : Fin L → Fin L → Fin D → ℚ)
    (mask : Fin L → ℚ) (t : Fin 2) : Fin L → Fin L → Fin D → ℚ :=
  let X := fun (i j : Fin L) (d : Fin D) => edgeStack rsqrt eps edge_repr i j d t
  let b := fun (h : Fin H) (qq kk : Fin L) =>
    (∑ cd, X qq kk cd * P.lbw cd t h) + P.lbb t h + mask2bias (mask kk)
  let q := fun (i : Fin L) (h : Fin H) (j : Fin L) (cc : Fin c) =>
    (∑ a, X i j a * P.ap.wq a t h cc) + P.ap.bq t h cc
  let gate := fun (i : Fin L) (h : Fin H) (j : Fin L) (cc : Fin c) =>
    (∑ a, X i j a * P.ap.wg a t h cc) + P.ap.bg t h cc
  let k := fun (i : Fin L) (h : Fin H) (j : Fin L) (cc : Fin c) =>
    (∑ a, X i j a * P.ap.wk a t h cc) + P.ap.bk t h cc
  let v := fun (i : Fin L) (h : Fin H) (j : Fin L) (cc : Fin c) =>
    (∑ a, X i j a * P.ap.wv a t h cc) + P.ap.bv t h cc
  let attnW := fun (i : Fin L) (h : Fin H) (jq : Fin L) =>
    softmaxF rexp
      (fun jk => (∑ cc, q i h jq cc * (rsqrt (c : ℚ))⁻¹ * k i h jk cc)
        + b h jq jk)
  let ao := fun (i : Fin L) (h : Fin H) (jq : Fin L) (cc : Fin c) =>
    (∑ jk, attnW i h jq jk * v i h jk cc)
      * sigmoid rexp (gate i h jq cc)
  fun i jq o => (∑ h, ∑ cc, ao i h jq cc * P.ap.wo t h cc o) + P.ap.ob o t

/-- The learned parameters of `AttentionWEdgeBias` (lines 440-461):
`pew`/`peb` are the `proj_edge_bias` linear map (`pew d h` is the weight
from edge channel `d` to head `h`) and `ap` the inner single-track
`Attention` with `q_dim = kv_dim = out_dim = d_node`. -/
structure EdgeBiasParams (dn de H c : ℕ) where
  pew : Fin de → Fin H → ℚ
  peb : Fin H → ℚ
  ap : AttentionParams dn dn 1 H c dn

/-- The pre-mask logit of `AttentionWEdgeBias`: the scaled query/key
contraction of `_attention` (line 89) plus the projected edge bias of line
485, i.e. everything added to the softmax input except the mask bias of
line 487. -/
def AttentionWEdgeBias.preMaskLogit (rsqrt : ℚ → ℚ) (eps : ℚ)
    {L dn de H c : ℕ} (P : EdgeBiasParams dn de H c)
    (node : Fin L → Fin dn → ℚ) (edge : Fin L → Fin L → Fin de → ℚ) :
    Fin L → Fin L → Fin H → ℚ :=
  let nN := fun (i : Fin L) => normalizeF rsqrt eps (node i)
  let eN := fun (i j : Fin L) => normalizeF rsqrt eps (edge i j)
  let q := fun (h : Fin H) (j : Fin L) (cc : Fin c) =>
    (∑ a, nN j a * P.ap.wq a 0 h cc) + P.ap.bq 0 h cc
  let k := fun (h : Fin H) (j : Fin L) (cc : Fin c) =>
    (∑ a, nN j a * P.ap.wk a 0 h cc) + P.ap.bk 0 h cc
  fun jq jk h => (∑ cc, q h jq cc * (rsqrt (c : ℚ))⁻¹ * k h jk cc)
    + ((∑ d, eN jq jk d * P.pew d h) + P.peb h)

/-- Lines 463-491 of `modules.py`: the post-softmax attention weights
computed inside `AttentionWEdgeBias.forward` (the second component of the
line 488 call, in the `(q, k, h)` layout of the line 436-437 return path
for auto-unsqueezed inputs).  The bias fed to the attention is the
projected edge bias plus `mask2bias` broadcast over heads and queries
(line 487). -/
def AttentionWEdgeBias.attnWeights (rexp rsqrt : ℚ → ℚ) (eps : ℚ)
    {L dn de H c : ℕ} (P : EdgeBiasParams dn de H c) (gating : Bool)
    (node : Fin L → Fin dn → ℚ) (edge : Fin L → Fin L → Fin de → ℚ)
    (mask : Fin L → ℚ) : Fin L → Fin L → Fin H → ℚ :=
  let nN := fun (i : Fin L) => normalizeF rsqrt eps (node i)
  let eN := fun (i j : Fin L) => normalizeF rsqrt eps (edge i j)
  let bias := fun (_ : Fin 1) (h : Fin H) (qq kk : Fin L) =>
    ((∑ d, eN qq kk d * P.pew d h) + P.peb h) + mask2bias (mask kk)
  fun jq jk h =>
    (attnCore rexp (rsqrt (c : ℚ))⁻¹ P.ap gating
      (fun (_ : Unit) (j : Fin L) (a : Fin dn) (_ : Fin 1) => nN j a)
      (fun (_ : Unit) (j : Fin L) (a : Fin dn) (_ : Fin 1) => nN j a)
      bias).2 () 0 h jq jk

/-- A concrete edge tensor (`L = 2`, `d_edge = 2`): the single entry
`edge 0 1 = (2, 0)` is nonzero. -/
def cexEdge : Fin 2 → Fin 2 → Fin 2 → ℚ :=
  fun i j d => if i = 0 ∧ j = 1 ∧ d = 0 then 2 else 0

/-- All-ones mask of length 2. -/
def cexMask : Fin 2 → ℚ := fun _ => 1

/-- All-zero inner attention parameters (`D = 2`, 2 tracks, 1 head,
`c = 1`). -/
def cexZeroAP : AttentionParams 2 2 2 1 1 2 where
  wq := fun _ _ _ _ => 0
  wg := fun _ _ _ _ => 0
  bq := fun _ _ _ => 0
  bg := fun _ _ _ => 0
  wk := fun _ _ _ _ => 0
  wv := fun _ _ _ _ => 0
  bk := fun _ _ _ => 0
  bv := fun _ _ _ => 0
  wo := fun _ _ _ _ => 0
  ob := fun _ _ => 0

/-- Concrete `GeometricAttention` parameters: the attention path and track
1 of the outer-product path are zeroed; track 0 uses the identity for the
GLU left block and the output projection, and projects the GLU right block
onto channel 0. -/
def cexP : GeomAttnParams 2 1 1 where
  lbw := fun _ _ _ => 0
  lbb := fun _ _ => 0
  w1 := fun cd r d => if r = 0 ∧ cd = d then 1 else 0
  w2 := fun cd r d => if r = 0 ∧ cd = 0 ∧ d = 0 then 1 else 0
  w3 := fun _ _ _ => 0
  w4 := fun _ _ _ => 0
  w5 := fun _ _ _ => 0
  b1 := fun _ _ => 0
  b2 := fun _ _ => 0
  b3 := fun _ _ => 0
  b4 := fun _ _ => 0
  b5 := fun _ _ => 0
  opw := fun r dd d => if r = 0 ∧ dd = d then 1 else 0
  opb := fun _ _ => 0
  ap := cexZeroAP

/-- All-zero single-track attention parameters (scalar dimensions). -/
def cexZeroAP1 : AttentionParams 1 1 1 1 1 1 where
  wq := fun _ _ _ _ => 0
  wg := fun _ _ _ _ => 0
  bq := fun _ _ _ => 0
  bg := fun _ _ _ => 0
  wk := fun _ _ _ _ => 0
  wv := fun _ _ _ _ => 0
  bk := fun _ _ _ => 0
  bv := fun _ _ _ => 0
  wo := fun _ _ _ _ => 0
  ob := fun _ _ => 0

/-- All-zero `AttentionWEdgeBias` parameters (scalar dimensions). -/
def cexEBP : EdgeBiasParams 1 1 1 1 where
  pew := fun _ _ => 0
  peb := fun _ => 0
  ap := cexZeroAP1

/-- A length-2 mask with position 0 masked out. -/
def cexMask01 : Fin 2 → ℚ := fun k => if k = 0 then 0 else 1

end OmegaFold

namespace OmegaFold

/-! ### Basic list lemmas -/

theorem sum_map_div (l : List ℚ) (s : ℚ) :
    (l.map (fun v => v / s)).sum = l.sum / s := by
  induction l with
  | nil => simp
  | cons a t ih => simp [ih, add_div]

theorem foldr_max_map_add (c : ℚ) (l : List ℚ) (b : ℚ) :
    ((l.map (· + c)).foldr max (b + c)) = l.foldr max b + c := by
  induction l with
  | nil => rfl
  | cons x xs ih => simp [ih, max_add_add_right]

theorem rowMax_map_add (c : ℚ) (l : Row) (h : l ≠ []) :
    rowMax (l.map (· + c)) = rowMax l + c := by
  match l with
  | [] => exact absurd rfl h
  | a :: t =>
    show ((a :: t).map (· + c)).foldr max (((a :: t).map (· + c)).headD 0)
      = (a :: t).foldr max ((a :: t).headD 0) + c
    simp only [List.map_cons, List.headD_cons]
    exact foldr_max_map_add c (a :: t) a

/-! ### Softmax lemmas -/

theorem normRow_smul (e : Row) (a : ℚ) (ha : a ≠ 0) :
    normRow (e.map (· * a)) = normRow e := by
  unfold normRow
  have hsum : (e.map (· * a)).sum = e.sum * a := by
    simpa using List.sum_map_mul_right e (fun v => v) a
  rw [hsum, List.map_map]
  refine List.map_congr_left (fun v _ => ?_)
  simp only [Function.comp_apply]
  exact mul_div_mul_right _ _ ha

theorem normRow_nonneg (e : Row) (hepos : ∀ v ∈ e, 0 < v) :
    ∀ y ∈ normRow e, 0 ≤ y := by
  intro y hy
  obtain ⟨v, hv, rfl⟩ := List.mem_map.mp hy
  rcases List.eq_nil_or_concat e with rfl | _
  · simp at hv
  · have he : e ≠ [] := by rintro rfl; simp_all
    exact div_nonneg (le_of_lt (hepos v hv)) (le_of_lt (List.sum_pos e hepos he))

theorem normRow_sum (e : Row) (he : e ≠ []) (hepos : ∀ v ∈ e, 0 < v) :
    (normRow e).sum = 1 := by
  unfold normRow
  rw [sum_map_div]
  exact div_self (ne_of_gt (List.sum_pos e hepos he))

theorem softmaxIP_eq_plain (rexp : ℚ → ℚ) (hpos : ∀ x, 0 < rexp x)
    (hhom : ∀ x y, rexp (x + y) = rexp x * rexp y) (x : Row) :
    softmaxIP rexp x = softmaxPlain rexp x := by
  unfold softmaxIP softmaxPlain
  have hmap : x.map (fun v => rexp (v - rowMax x))
      = (x.map rexp).map (· * rexp (-rowMax x)) := by
    rw [List.map_map]
    refine List.map_congr_left (fun v _ => ?_)
    simp only [Function.comp_apply]
    rw [sub_eq_add_neg, hhom]
  rw [hmap, normRow_smul _ _ (ne_of_gt (hpos _))]

theorem softmax_length (rexp : ℚ → ℚ) (b : Bool) (x : Row) :
    (softmax rexp b x).length = x.length := by
  cases b <;> simp [softmax, softmaxIP, softmaxPlain, normRow]

theorem softmax_nonneg (rexp : ℚ → ℚ) (hpos : ∀ x, 0 < rexp x) (b : Bool)
    (x : Row) : ∀ y ∈ softmax rexp b x, 0 ≤ y := by
  have key : ∀ l : Row, (∀ v ∈ l.map rexp, 0 < v) := by
    intro l v hv; obtain ⟨u, _, rfl⟩ := List.mem_map.mp hv; exact hpos u
  cases b
  · exact normRow_nonneg _ (key x)
  · refine normRow_nonneg _ ?_
    intro v hv; obtain ⟨u, _, rfl⟩ := List.mem_map.mp hv; exact hpos _

theorem softmax_sum_one (rexp : ℚ → ℚ) (hpos : ∀ x, 0 < rexp x) (b : Bool)
    (x : Row) (hx : x ≠ []) : (softmax rexp b x).sum = 1 := by
  cases b
  · refine normRow_sum _ (by simpa using hx) ?_
    intro v hv; obtain ⟨u, _, rfl⟩ := List.mem_map.mp hv; exact hpos _
  · refine normRow_sum _ (by simpa using hx) ?_
    intro v hv; obtain ⟨u, _, rfl⟩ := List.mem_map.mp hv; exact hpos _

theorem softmax_shift (rexp : ℚ → ℚ) (hpos : ∀ x, 0 < rexp x)
    (hhom : ∀ x y, rexp (x + y) = rexp x * rexp y) (b : Bool) (x : Row)
    (c : ℚ) : softmax rexp b (x.map (· + c)) = softmax rexp b x := by
  rcases List.eq_nil_or_concat x with rfl | _
  · rfl
  · have hx : x ≠ [] := by rintro rfl; simp_all
    cases b
    · show softmaxPlain rexp (x.map (· + c)) = softmaxPlain rexp x
      unfold softmaxPlain
      have hmap : (x.map (· + c)).map rexp = (x.map rexp).map (· * rexp c) := by
        rw [List.map_map, List.map_map]
        refine List.map_congr_left (fun v _ => ?_)
        simp only [Function.comp_apply]
        exact hhom v c
      rw [hmap, normRow_smul _ _ (ne_of_gt (hpos _))]
    · show softmaxIP rexp (x.map (· + c)) = softmaxIP rexp x
      unfold softmaxIP
      rw [rowMax_map_add c x hx, List.map_map]
      have heq : ((fun v => rexp (v - (rowMax x + c))) ∘ (· + c))
          = fun v => rexp (v - rowMax x) := by
        funext v; simp only [Function.comp_apply]; ring_nf
      rw [heq]

/-! ### Claims C6 and C7: softmax -/

/-- C6.  In-place/out-of-place softmax equivalence: for every input tensor
(presented as its 1-D slices along the chosen axis), `softmax` with
`in_place=True` returns the same values as `softmax` with `in_place=False`,
assuming the exponential is positive and turns sums into products (as the
real exponential does). -/
theorem softmax_in_place_out_of_place_equiv (rexp : ℚ → ℚ)
    (hpos : ∀ x, 0 < rexp x) (hhom : ∀ x y, rexp (x + y) = rexp x * rexp y)
    (x : Mat) : softmaxMat rexp true x = softmaxMat rexp false x := by
  unfold softmaxMat
  refine List.map_congr_left (fun r _ => ?_)
  show softmaxIP rexp r = softmaxPlain rexp r
  exact softmaxIP_eq_plain rexp hpos hhom r

/-- Witness for C6 at a concrete input. -/
theorem softmax_in_place_out_of_place_equiv_witness :
    (∀ x : ℚ, 0 < (fun _ : ℚ => (1 : ℚ)) x) ∧
    (∀ x y : ℚ, (fun _ : ℚ => (1 : ℚ)) (x + y)
      = (fun _ : ℚ => (1 : ℚ)) x * (fun _ : ℚ => (1 : ℚ)) y) ∧
    softmaxMat (fun _ => 1) true [[1, 2], [3]]
      = softmaxMat (fun _ => 1) false [[1, 2], [3]] :=
  ⟨fun _ => one_pos, fun _ _ => (one_mul 1).symm,
    softmax_in_place_out_of_place_equiv (fun _ => 1) (fun _ => one_pos)
      (fun _ _ => (one_mul 1).symm) [[1, 2], [3]]⟩

/-- C7.  Softmax correctness: for every tensor of logits (presented as its
1-D slices along the normalized axis) and either in-place mode, the output
has the same shape as the input, its values are non-negative, every slice
with at least one entry sums to 1, and the output is invariant under adding
a single constant to all logits along the normalized axis.  Positivity and
the sum-to-product law axiomatize the real exponential. -/
theorem softmax_correct (rexp : ℚ → ℚ) (hpos : ∀ x, 0 < rexp x)
    (hhom : ∀ x y, rexp (x + y) = rexp x * rexp y) (b : Bool) (x : Mat)
    (c : ℚ) :
    (softmaxMat rexp b x).map List.length = x.map List.length ∧
    (∀ r ∈ softmaxMat rexp b x, ∀ y ∈ r, 0 ≤ y) ∧
    (∀ r ∈ x, r ≠ [] → (softmax rexp b r).sum = 1) ∧
    softmaxMat rexp b (x.map (List.map (· + c))) = softmaxMat rexp b x := by
  refine ⟨?_, ?_, ?_, ?_⟩
  · unfold softmaxMat
    rw [List.map_map]
    exact List.map_congr_left (fun r _ => softmax_length rexp b r)
  · intro r hr
    obtain ⟨s, _, rfl⟩ := List.mem_map.mp hr
    exact softmax_nonneg rexp hpos b s
  · intro r _ hr
    exact softmax_sum_one rexp hpos b r hr
  · unfold softmaxMat
    rw [List.map_map]
    exact List.map_congr_left
      (fun r _ => softmax_shift rexp hpos hhom b r c)

/-- Witness for C7 at a concrete input. -/
theorem softmax_correct_witness :
    (∀ x : ℚ, 0 < (fun _ : ℚ => (1 : ℚ)) x) ∧
    (∀ x y : ℚ, (fun _ : ℚ => (1 : ℚ)) (x + y)
      = (fun _ : ℚ => (1 : ℚ)) x * (fun _ : ℚ => (1 : ℚ)) y) ∧
    ((softmaxMat (fun _ => 1) true [[1, 2]]).map List.length
        = [[(1 : ℚ), 2]].map List.length ∧
      (∀ r ∈ softmaxMat (fun _ => 1) true [[1, 2]], ∀ y ∈ r, 0 ≤ y) ∧
      (∀ r ∈ [[(1 : ℚ), 2]], r ≠ [] → (softmax (fun _ => 1) true r).sum = 1) ∧
      softmaxMat (fun _ => 1) true ([[(1 : ℚ), 2]].map (List.map (· + 5)))
        = softmaxMat (fun _ => 1) true [[1, 2]]) :=
  ⟨fun _ => one_pos, fun _ _ => (one_mul 1).symm,
    softmax_correct (fun _ => 1) (fun _ => one_pos)
      (fun _ _ => (one_mul 1).symm) true [[1, 2]] 5⟩

/-! ### Chunked attention (claims C1, C2) -/

theorem addBias_eq_zipWith (logits bias : Mat)
    (h : bias.length = logits.length) :
    addBias logits bias = List.zipWith vadd logits bias := by
  match bias, h with
  | [], _ => rfl
  | [b], h =>
    obtain ⟨l, rfl⟩ := List.length_eq_one.mp h.symm
    rfl
  | b1 :: b2 :: t, _ => rfl

theorem _attention_eq_zipWith (rexp : ℚ → ℚ) (query key : Mat) (scale : ℚ)
    (value bias : Mat) (h : bias.length = query.length) :
    _attention rexp query key scale value bias
      = (List.zipWith (outRow rexp key scale value) query bias,
         List.zipWith (attnRow rexp key scale) query bias) := by
  unfold _attention
  rw [addBias_eq_zipWith _ _ (by simpa using h), List.zipWith_map_left]
  unfold softmaxMat
  rw [List.map_zipWith, List.map_zipWith]
  rfl

theorem _attention_broadcast (rexp : ℚ → ℚ) (query key : Mat) (scale : ℚ)
    (value : Mat) (b : Row) :
    _attention rexp query key scale value [b]
      = (query.map (fun q => outRow rexp key scale value q b),
         query.map (fun q => attnRow rexp key scale q b)) := by
  have haddBias : addBias (query.map (logitsRow key scale)) [b]
      = (query.map (logitsRow key scale)).map (fun r => vadd r b) := rfl
  unfold _attention softmaxMat
  rw [haddBias]
  simp only [List.map_map, Function.comp_def, outRow, attnRow]

theorem attentionLoop_sliced (rexp : ℚ → ℚ) (key : Mat) (scale : ℚ)
    (value : Mat) (c : ℕ) (hc : 1 ≤ c) :
    ∀ fuel query bias, query.length ≤ fuel → bias.length = query.length →
      attentionLoop rexp key scale value c true fuel query bias
        = _attention rexp query key scale value bias := by
  intro fuel
  induction fuel with
  | zero =>
    intro query bias hf hb
    have hq : query = [] := List.eq_nil_of_length_eq_zero (Nat.le_zero.mp hf)
    subst hq
    have hb' : bias = [] := List.eq_nil_of_length_eq_zero hb
    subst hb'
    rfl
  | succ n ih =>
    intro query bias hf hb
    by_cases hq : query = []
    · subst hq
      have hb' : bias = [] := List.eq_nil_of_length_eq_zero hb
      subst hb'
      rfl
    · have hcond : ¬(query.isEmpty ∨ c = 0) := by
        simp [List.isEmpty_iff, hq]; omega
      rw [attentionLoop, if_neg hcond]
      have htake : (bias.take c).length = (query.take c).length := by
        simp [hb]
      have hlen : (query.drop c).length ≤ n := by
        have := List.length_pos.mpr hq
        simp only [List.length_drop]
        omega
      have hdrop : (bias.drop c).length = (query.drop c).length := by
        simp [hb]
      simp only [Bool.cond_true]
      rw [ih (query.drop c) (bias.drop c) hlen hdrop,
        _attention_eq_zipWith rexp _ key scale value _ htake,
        _attention_eq_zipWith rexp _ key scale value _ hdrop,
        _attention_eq_zipWith rexp _ key scale value _ hb]
      unfold pairAppend
      conv_rhs =>
        rw [← List.take_append_drop c query, ← List.take_append_drop c bias]
      rw [List.zipWith_append _ _ _ _ _ htake.symm,
        List.zipWith_append _ _ _ _ _ htake.symm]

theorem attentionLoop_broadcast (rexp : ℚ → ℚ) (key : Mat) (scale : ℚ)
    (value : Mat) (c : ℕ) (hc : 1 ≤ c) (b : Row) :
    ∀ fuel query, query.length ≤ fuel →
      attentionLoop rexp key scale value c false fuel query [b]
        = _attention rexp query key scale value [b] := by
  intro fuel
  induction fuel with
  | zero =>
    intro query hf
    have hq : query = [] := List.eq_nil_of_length_eq_zero (Nat.le_zero.mp hf)
    subst hq
    rfl
  | succ n ih =>
    intro query hf
    by_cases hq : query = []
    · subst hq; rfl
    · have hcond : ¬(query.isEmpty ∨ c = 0) := by
        simp [List.isEmpty_iff, hq]; omega
      rw [attentionLoop, if_neg hcond]
      have hlen : (query.drop c).length ≤ n := by
        have := List.length_pos.mpr hq
        simp only [List.length_drop]
        omega
      simp only [Bool.cond_false]
      rw [ih (query.drop c) hlen,
        _attention_broadcast, _attention_broadcast, _attention_broadcast]
      unfold pairAppend
      conv_rhs => rw [← List.take_append_drop c query]
      rw [List.map_append, List.map_append]

/-- C1.  Chunk invariance of the attention primitive: for every query, key,
value, every bias admissible for the one-pass computation (its query-length
dimension equals `n_q`, or it is a single broadcast row), and every chunk
size `c ≥ 1` — divisor of `n_q` or not — `attention` with
`subbatch_size = c` returns exactly the same output and attention weights as
the single-chunk run (`subbatch_size = None`, i.e. `n_q`); in exact
arithmetic the two are equal, so chunking never changes which queries and
keys interact. -/
theorem attention_chunk_invariant (rexp : ℚ → ℚ) (query key : Mat)
    (scale : ℚ) (value bias : Mat) (c : ℤ) (hc : 1 ≤ c)
    (hbias : bias.length = query.length ∨ bias.length = 1) :
    attention rexp query key scale value bias (some c)
      = attention rexp query key scale value bias none := by
  have hsome : splitSize (some c) query.length = c := by
    simp only [splitSize, ite_eq_right_iff]
    omega
  have hnone : splitSize none query.length = (query.length : ℤ) := rfl
  unfold attention
  rw [hsome, hnone, if_neg (by omega : ¬(c < 0)),
    if_neg (by omega : ¬((query.length : ℤ) < 0))]
  by_cases hq : query = []
  · subst hq
    rfl
  · have hqpos : 1 ≤ query.length := List.length_pos.mpr hq
    have hcnat : 1 ≤ c.toNat := by omega
    have htonat : ((query.length : ℤ)).toNat = query.length := by omega
    rw [htonat]
    by_cases h1 : bias.length = query.length
    · have hslice : decide (bias.length = query.length) = true := by
        simp [h1]
      rw [hslice,
        attentionLoop_sliced rexp key scale value c.toNat hcnat
          query.length query bias le_rfl h1,
        attentionLoop_sliced rexp key scale value query.length hqpos
          query.length query bias le_rfl h1]
    · have hb : bias.length = 1 := hbias.resolve_left h1
      have hslice : decide (bias.length = query.length) = false := by
        simp [h1]
      rw [hslice]
      obtain ⟨b, rfl⟩ := List.length_eq_one.mp hb
      rw [attentionLoop_broadcast rexp key scale value c.toNat hcnat b
          query.length query le_rfl,
        attentionLoop_broadcast rexp key scale value query.length hqpos b
          query.length query le_rfl]

/-- Witness for C1: chunk size 2 on a query of length 3 (a non-divisor
chunk size), with a per-query bias. -/
theorem attention_chunk_invariant_witness :
    ((1 : ℤ) ≤ 2) ∧
    ([[(5 : ℚ), 1], [0, 0], [2, 3]].length = [[(1 : ℚ)], [2], [3]].length ∨
      [[(5 : ℚ), 1], [0, 0], [2, 3]].length = 1) ∧
    attention (fun _ => 1) [[(1 : ℚ)], [2], [3]] [[1], [2]] 1 [[2], [3]]
        [[(5 : ℚ), 1], [0, 0], [2, 3]] (some 2)
      = attention (fun _ => 1) [[(1 : ℚ)], [2], [3]] [[1], [2]] 1 [[2], [3]]
        [[(5 : ℚ), 1], [0, 0], [2, 3]] none :=
  ⟨by norm_num, Or.inl (by decide),
    attention_chunk_invariant (fun _ => 1) [[(1 : ℚ)], [2], [3]] [[1], [2]]
      1 [[2], [3]] [[(5 : ℚ), 1], [0, 0], [2, 3]] 2 (by norm_num)
      (Or.inl (by decide))⟩

/-- Counterexample to C2: calling `attention` with `subbatch_size = 0` does
not raise; Python's `subbatch_size or q_length` (line 118) silently replaces
`0` by the full query length and the call succeeds. -/
theorem attention_zero_chunk_size_accepted :
    attention (fun _ => 1) [[1]] [[1]] 1 [[1]] [[0]] (some 0)
      = Except.ok ([[1]], [[1]]) := by
  simp [attention, splitSize, attentionLoop, pairAppend, _attention, addBias,
    softmaxMat, softmax, softmaxIP, normRow, rowMax, logitsRow, dot, vadd,
    matMulRow]

/-- C2 as amended: a negative chunk size fails fast (the modelled
`torch.split` error), but chunk size `0` is silently replaced by the full
query length, behaving exactly like the unchunked call. -/
theorem attention_invalid_chunk_size (rexp : ℚ → ℚ) (query key : Mat)
    (scale : ℚ) (value bias : Mat) (v : ℤ) (hv : v < 0) :
    attention rexp query key scale value bias (some v)
        = Except.error "split expects split_size be non-negative" ∧
      attention rexp query key scale value bias (some 0)
        = attention rexp query key scale value bias none := by
  constructor
  · unfold attention
    have hs : splitSize (some v) query.length = v := by
      simp only [splitSize, ite_eq_right_iff]
      omega
    rw [hs, if_pos hv]
  · unfold attention
    have h0 : splitSize (some 0) query.length
        = splitSize none query.length := by
      simp [splitSize]
    rw [h0]

/-! ### Frame lemmas for the buffer store (claim C10) -/

theorem readB_writeB_ne (σ : Store) (q p : ℕ) (m : Mat) (h : q ≠ p) :
    readB (writeB σ q m) p = readB σ p := by
  unfold readB writeB
  simp [List.getD_eq_getElem?_getD, List.getElem?_set_ne h]

theorem readB_allocB (σ : Store) (m : Mat) (p : ℕ) (h : p < σ.length) :
    readB (allocB σ m).1 p = readB σ p := by
  unfold readB allocB
  simp [List.getD_eq_getElem?_getD, List.getElem?_append_left h]

theorem writeB_length (σ : Store) (q : ℕ) (m : Mat) :
    (writeB σ q m).length = σ.length := List.length_set σ q m

theorem readB_writeRows_ne (σ : Store) (q p start : ℕ) (rows : Mat)
    (h : q ≠ p) : readB (writeRows σ q start rows) p = readB σ p := by
  unfold writeRows
  exact readB_writeB_ne _ _ _ _ h

theorem writeRows_length (σ : Store) (q start : ℕ) (rows : Mat) :
    (writeRows σ q start rows).length = σ.length := writeB_length _ _ _

theorem readB_softmaxStore_ne (rexp : ℚ → ℚ) (σ : Store) (q p : ℕ)
    (h : q ≠ p) : readB (softmaxStore rexp σ q) p = readB σ p := by
  simp only [softmaxStore]
  rw [readB_writeB_ne _ _ _ _ h, readB_writeB_ne _ _ _ _ h,
    readB_writeB_ne _ _ _ _ h]

theorem softmaxStore_length (rexp : ℚ → ℚ) (σ : Store) (q : ℕ) :
    (softmaxStore rexp σ q).length = σ.length := by
  simp only [softmaxStore]
  rw [writeB_length, writeB_length, writeB_length]

theorem readB_attentionStoreStep_ne (rexp : ℚ → ℚ) (scale : ℚ) (c : ℕ)
    (pq pk pv pb po pl : ℕ) (σ : Store) (start p : ℕ) (hp : p < σ.length)
    (hpo : po ≠ p) (hpl : pl ≠ p) :
    readB (attentionStoreStep rexp scale c pq pk pv pb po pl σ start) p
      = readB σ p := by
  simp only [attentionStoreStep]
  rw [readB_writeRows_ne _ _ _ _ _ hpl, readB_writeRows_ne _ _ _ _ _ hpo,
    readB_softmaxStore_ne _ _ _ _ (by simp [allocB]; omega),
    readB_allocB _ _ _ hp]

theorem attentionStoreStep_length (rexp : ℚ → ℚ) (scale : ℚ) (c : ℕ)
    (pq pk pv pb po pl : ℕ) (σ : Store) (start : ℕ) :
    (attentionStoreStep rexp scale c pq pk pv pb po pl σ start).length
      = σ.length + 1 := by
  simp only [attentionStoreStep]
  rw [writeRows_length, writeRows_length, softmaxStore_length]
  simp [allocB]

theorem attentionStoreLoop_frame (rexp : ℚ → ℚ) (scale : ℚ) (c : ℕ)
    (pq pk pv pb po pl : ℕ) (N : ℕ) (hpo : N ≤ po) (hpl : N ≤ pl) :
    ∀ fuel σ start, N ≤ σ.length → ∀ p, p < N →
      readB (attentionStoreLoop rexp scale c pq pk pv pb po pl fuel σ start) p
        = readB σ p := by
  intro fuel
  induction fuel with
  | zero => intro σ start hN p hp; rfl
  | succ n ih =>
    intro σ start hN p hp
    rw [attentionStoreLoop]
    by_cases hcond : (readB σ pq).length ≤ start ∨ c = 0
    · rw [if_pos hcond]
    · rw [if_neg hcond]
      have hlen : N ≤ (attentionStoreStep rexp scale c pq pk pv pb po pl
          σ start).length := by
        rw [attentionStoreStep_length]; omega
      rw [ih _ _ hlen p hp]
      exact readB_attentionStoreStep_ne rexp scale c pq pk pv pb po pl σ
        start p (by omega) (by omega) (by omega)

theorem attentionStoreLoop_alloc_frame (rexp : ℚ → ℚ) (scale : ℚ)
    (c pq pk pv pb fuel start : ℕ) (σ : Store) (A B : Mat) (p : ℕ)
    (hp : p < σ.length) :
    readB (attentionStoreLoop rexp scale c pq pk pv pb σ.length
      (σ.length + 1) fuel (σ ++ [A] ++ [B]) start) p = readB σ p := by
  rw [attentionStoreLoop_frame rexp scale c pq pk pv pb σ.length
    (σ.length + 1) σ.length le_rfl (by omega) fuel _ start (by simp) p hp]
  unfold readB
  rw [List.getD_eq_getElem?_getD, List.getD_eq_getElem?_getD,
    List.getElem?_append_left
      (by simp; omega : p < (σ ++ [A]).length),
    List.getElem?_append_left hp]

/-- C10.  The chunked `attention` never mutates its arguments: run against
an explicit buffer store, with the in-place softmax and the output-buffer
slice writes modelled as destructive updates, the query, key, value and
bias buffers hold the same values after the call as before it (the in-place
softmax operates only on the freshly allocated `logits + bias` buffer, and
slice writes target only the two freshly allocated result buffers). -/
theorem attention_no_argument_mutation (rexp : ℚ → ℚ) (σ : Store)
    (pq pk pv pb : ℕ) (scale : ℚ) (subbatch : Option ℤ)
    (out : Store × ℕ × ℕ)
    (hq : pq < σ.length) (hk : pk < σ.length) (hv : pv < σ.length)
    (hb : pb < σ.length)
    (hrun : attentionStore rexp σ pq pk pv pb scale subbatch
      = Except.ok out) :
    readB out.1 pq = readB σ pq ∧ readB out.1 pk = readB σ pk ∧
      readB out.1 pv = readB σ pv ∧ readB out.1 pb = readB σ pb := by
  simp only [attentionStore] at hrun
  by_cases hneg : splitSize subbatch (readB σ pq).length < 0
  · rw [if_pos hneg] at hrun
    exact absurd hrun (by simp)
  · rw [if_neg hneg] at hrun
    have hinj := Except.ok.inj hrun
    subst hinj
    dsimp only
    simp only [allocB, List.length_append, List.length_singleton]
    exact ⟨attentionStoreLoop_alloc_frame rexp scale _ pq pk pv pb _ 0 σ
        _ _ pq hq,
      attentionStoreLoop_alloc_frame rexp scale _ pq pk pv pb _ 0 σ
        _ _ pk hk,
      attentionStoreLoop_alloc_frame rexp scale _ pq pk pv pb _ 0 σ
        _ _ pv hv,
      attentionStoreLoop_alloc_frame rexp scale _ pq pk pv pb _ 0 σ
        _ _ pb hb⟩

/-! ### Shape-level lemmas (claims C3, C9) -/

theorem broadcastRev_self (l : List ℕ) : broadcastRev l l = Except.ok l := by
  induction l with
  | nil => rfl
  | cons x xs ih => simp [broadcastRev, ih]

theorem broadcastShapes_self (s : Shape) :
    broadcastShapes s s = Except.ok s := by
  simp [broadcastShapes, broadcastRev_self]

theorem broadcastRev_nil_left (ys : List ℕ) :
    broadcastRev [] ys = Except.ok ys := rfl

theorem broadcastRev_nil_right (xs : List ℕ) :
    broadcastRev xs [] = Except.ok xs := by
  cases xs <;> rfl

theorem broadcastRev_cons_self (x : ℕ) (xs ys : List ℕ) :
    broadcastRev (x :: xs) (x :: ys)
      = match broadcastRev xs ys with
        | Except.ok r => Except.ok (x :: r)
        | Except.error e => Except.error e := by
  simp [broadcastRev]
  cases broadcastRev xs ys <;> simp

theorem broadcastRev_one_right (x : ℕ) (xs ys : List ℕ) :
    broadcastRev (x :: xs) (1 :: ys)
      = match broadcastRev xs ys with
        | Except.ok r => Except.ok (x :: r)
        | Except.error e => Except.error e := by
  by_cases h : x = 1 <;> simp [broadcastRev, h] <;>
    cases broadcastRev xs ys <;> simp

theorem broadcastRev_one_left (y : ℕ) (xs ys : List ℕ) :
    broadcastRev (1 :: xs) (y :: ys)
      = match broadcastRev xs ys with
        | Except.ok r => Except.ok (y :: r)
        | Except.error e => Except.error e := by
  by_cases h : y = 1 <;> simp [broadcastRev, h] <;>
    cases broadcastRev xs ys <;> simp

theorem attentionShapeLoop_ok (key value bias batch : Shape)
    (qLength c dqk vDim kLen : ℕ)
    (dbLast dbQ : ℕ) (dbRest : List ℕ)
    (hbias : bias.reverse = dbLast :: dbQ :: dbRest)
    (hcond : ∀ n, 1 ≤ n → n ≤ c →
      einsum_id_jd (batch ++ [n, dqk]) key
          = Except.ok (batch ++ [n, kLen]) ∧
        broadcastShapes (batch ++ [n, kLen])
          (if dbQ = qLength then dbRest.reverse ++ [n, dbLast] else bias)
          = Except.ok (batch ++ [n, kLen]) ∧
        einsum_ij_jd (batch ++ [n, kLen]) value
          = Except.ok (batch ++ [n, vDim])) :
    ∀ fuel start,
      attentionShapeLoop key value bias batch qLength c dqk vDim kLen
        fuel start = Except.ok () := by
  intro fuel
  induction fuel with
  | zero => intro start; rfl
  | succ m ih =>
    intro start
    rw [attentionShapeLoop]
    by_cases hstart : qLength ≤ start ∨ c = 0
    · rw [if_pos hstart]
    · rw [if_neg hstart]
      have h1 : 1 ≤ min c (qLength - start) := by omega
      have h2 : min c (qLength - start) ≤ c := by omega
      obtain ⟨e1, e2, e3⟩ := hcond _ h1 h2
      simp only [hbias, e1, e2, e3, and_self]
      rw [if_pos True.intro]
      exact ih _

/-- Counterexample to C3: with a leading batch axis `B` the forward pass
raises (the `.permute(2, 0, 1)` of line 485 requires the projected edge
tensor to have exactly 3 axes, but shape `(B, L, L, n_head)` has 4), so no
tensor of shape `(B, L, d_node)` is ever returned.  Here `B = 2, L = 3,
d_node = 5, d_edge = 7, n_head = 2, c = 4`. -/
theorem attentionWEdgeBias_batched_rejected :
    AttentionWEdgeBias.forwardShape 5 7 2 true 4 [2, 3, 5] [2, 3, 3, 7]
      [2, 3] none
      = Except.error "number of dims don't match in permute" := by
  rfl

/-- C3 as amended: for unbatched inputs — node features `(L, d_node)`, edge
features `(L, L, d_edge)`, mask `(L)` — `AttentionWEdgeBias.forward` built
with `out_dim = d_node` returns shape exactly `(L, d_node)`, for every
`n_head`, per-head dimension `c` and gating flag, provided `d_node ≠ 1`
(if `d_node = 1` the auto-unsqueeze of the track axis misfires and the
projection einsum raises).  Leading batch axes are rejected
(`attentionWEdgeBias_batched_rejected`). -/
theorem attentionWEdgeBias_output_shape (L d_node d_edge n_head attn_c : ℕ)
    (g : Bool) (hd : d_node ≠ 1) :
    AttentionWEdgeBias.forwardShape d_node d_edge n_head g attn_c
      [L, d_node] [L, L, d_edge] [L] none = Except.ok [L, d_node] := by
  have hcond : ∀ n, 1 ≤ n → n ≤ 1 →
      einsum_id_jd ([1, n_head] ++ [n, attn_c]) [1, n_head, L, attn_c]
          = Except.ok ([1, n_head] ++ [n, L]) ∧
        broadcastShapes ([1, n_head] ++ [n, L])
          (if L = L then [n_head, 1].reverse ++ [n, L]
            else [1, n_head, L, L])
          = Except.ok ([1, n_head] ++ [n, L]) ∧
        einsum_ij_jd ([1, n_head] ++ [n, L]) [1, n_head, L, attn_c]
          = Except.ok ([1, n_head] ++ [n, attn_c]) := by
    intro n h1 h2
    have hn : n = 1 := by omega
    subst hn
    refine ⟨?_, ?_, ?_⟩ <;>
      simp [einsum_id_jd, einsum_ij_jd, broadcastShapes,
        broadcastRev_cons_self, broadcastRev_nil_left]
  have hloop := attentionShapeLoop_ok [1, n_head, L, attn_c]
    [1, n_head, L, attn_c] [1, n_head, L, L] [1, n_head] L 1 attn_c attn_c
    L L L [n_head, 1] (by simp) hcond
  unfold AttentionWEdgeBias.forwardShape Attention.forwardShape
  simp [bind, Except.bind, pure, Except.pure, linearShape, permute201,
    broadcastShapes, broadcastRev_cons_self, broadcastRev_one_left,
    broadcastRev_one_right, broadcastRev_nil_left, broadcastRev_nil_right,
    unsqueezeNeg4, einsum_qar_arhc,
    addInPlaceShape, splitLastShape, dimNeg4, attentionShape, splitSize,
    einsum_rhqc_rhco, squeezeNeg1, squeezeNeg4, transposeNeg14, hd, hloop]

/-- Witness for the amended C3 at `L = 3, d_node = 5, d_edge = 7,
n_head = 2, c = 4`, gating on. -/
theorem attentionWEdgeBias_output_shape_witness :
    (5 : ℕ) ≠ 1 ∧
    AttentionWEdgeBias.forwardShape 5 7 2 true 4 [3, 5] [3, 3, 7] [3] none
      = Except.ok [3, 5] :=
  ⟨by omega, attentionWEdgeBias_output_shape 3 5 7 2 4 true (by omega)⟩

/-- C9.  Track-axis auto-unsqueeze symmetry of `Attention.forward`: if the
caller passes plain `(..., length, feature_dim)` inputs without the
trailing track axis (detected at lines 395-398 by the trailing dimension
differing from the track count while matching the feature dimension; here
`n_axis = 1`, the configuration under which plain inputs are accepted by
the projection einsum), the track axis is auto-inserted before projection
and removed again from both the output and the returned attention weights:
the result shapes are `(..., q_len, out_dim)` and
`(..., q_len, kv_len, n_head)`, with no track axis.  If the inputs carry
the track axis, the output keeps it:
`(..., q_len, out_dim, n_axis)` and `(..., n_axis, q_len, kv_len, n_head)`. -/
theorem attention_forward_track_axis_auto_unsqueeze
    (q_dim kv_dim n_head c out_dim n_axis : ℕ) (g : Bool)
    (batch : Shape) (q_len kv_len : ℕ) (hd : q_dim ≠ 1) :
    (Attention.forwardShape q_dim kv_dim n_head g c out_dim 1
        (batch ++ [q_len, q_dim]) (batch ++ [kv_len, kv_dim])
        (batch ++ [n_head, q_len, kv_len]) none
      = Except.ok (batch ++ [q_len, out_dim],
          batch ++ [q_len, kv_len, n_head]))
    ∧ (Attention.forwardShape q_dim kv_dim n_head g c out_dim n_axis
        (batch ++ [q_len, q_dim, n_axis]) (batch ++ [kv_len, kv_dim, n_axis])
        (batch ++ [n_axis, n_head, q_len, kv_len]) none
      = Except.ok (batch ++ [q_len, out_dim, n_axis],
          batch ++ [n_axis, q_len, kv_len, n_head])) := by
  constructor
  · have hcond : ∀ n, 1 ≤ n → n ≤ 1 →
        einsum_id_jd ((batch ++ [1, n_head]) ++ [n, c])
            (batch ++ [1, n_head, kv_len, c])
            = Except.ok ((batch ++ [1, n_head]) ++ [n, kv_len]) ∧
          broadcastShapes ((batch ++ [1, n_head]) ++ [n, kv_len])
            (if q_len = q_len
              then (n_head :: 1 :: batch.reverse).reverse ++ [n, kv_len]
              else batch ++ [1, n_head, q_len, kv_len])
            = Except.ok ((batch ++ [1, n_head]) ++ [n, kv_len]) ∧
          einsum_ij_jd ((batch ++ [1, n_head]) ++ [n, kv_len])
            (batch ++ [1, n_head, kv_len, c])
            = Except.ok ((batch ++ [1, n_head]) ++ [n, c]) := by
      intro n h1 h2
      refine ⟨?_, ?_, ?_⟩ <;>
        simp [einsum_id_jd, einsum_ij_jd, broadcastShapes,
          broadcastRev_cons_self, broadcastRev_self, List.reverse_append]
    have hloop := attentionShapeLoop_ok (batch ++ [1, n_head, kv_len, c])
      (batch ++ [1, n_head, kv_len, c]) (batch ++ [1, n_head, q_len, kv_len])
      (batch ++ [1, n_head]) q_len 1 c c kv_len kv_len q_len
      (n_head :: 1 :: batch.reverse) (by simp [List.reverse_append]) hcond
    unfold Attention.forwardShape
    simp [bind, Except.bind, pure, Except.pure,
      broadcastShapes, broadcastRev_cons_self, broadcastRev_one_left,
      broadcastRev_one_right, broadcastRev_nil_left, broadcastRev_nil_right,
      broadcastRev_self,
      unsqueezeNeg4, einsum_qar_arhc,
      addInPlaceShape, splitLastShape, dimNeg4, attentionShape, splitSize,
      einsum_rhqc_rhco, squeezeNeg1, squeezeNeg4, transposeNeg14, hd, hloop,
      List.reverse_append]
  · have hnn : ¬ splitSize (some (n_axis : ℤ)) q_len < 0 := by
      unfold splitSize
      by_cases h : (n_axis : ℤ) = 0 <;> simp [h]
    have hcond : ∀ n, 1 ≤ n →
        n ≤ (splitSize (some (n_axis : ℤ)) q_len).toNat →
        einsum_id_jd ((batch ++ [n_axis, n_head]) ++ [n, c])
            (batch ++ [n_axis, n_head, kv_len, c])
            = Except.ok ((batch ++ [n_axis, n_head]) ++ [n, kv_len]) ∧
          broadcastShapes ((batch ++ [n_axis, n_head]) ++ [n, kv_len])
            (if q_len = q_len
              then (n_head :: n_axis :: batch.reverse).reverse ++ [n, kv_len]
              else batch ++ [n_axis, n_head, q_len, kv_len])
            = Except.ok ((batch ++ [n_axis, n_head]) ++ [n, kv_len]) ∧
          einsum_ij_jd ((batch ++ [n_axis, n_head]) ++ [n, kv_len])
            (batch ++ [n_axis, n_head, kv_len, c])
            = Except.ok ((batch ++ [n_axis, n_head]) ++ [n, c]) := by
      intro n h1 h2
      refine ⟨?_, ?_, ?_⟩ <;>
        simp [einsum_id_jd, einsum_ij_jd, broadcastShapes,
          broadcastRev_cons_self, broadcastRev_self, List.reverse_append]
    have hloop := attentionShapeLoop_ok (batch ++ [n_axis, n_head, kv_len, c])
      (batch ++ [n_axis, n_head, kv_len, c])
      (batch ++ [n_axis, n_head, q_len, kv_len]) (batch ++ [n_axis, n_head])
      q_len ((splitSize (some (n_axis : ℤ)) q_len).toNat) c c kv_len kv_len
      q_len (n_head :: n_axis :: batch.reverse)
      (by simp [List.reverse_append]) hcond
    unfold Attention.forwardShape
    simp [bind, Except.bind, pure, Except.pure,
      broadcastShapes, broadcastRev_cons_self, broadcastRev_one_left,
      broadcastRev_one_right, broadcastRev_nil_left, broadcastRev_nil_right,
      broadcastRev_self, hnn,
      unsqueezeNeg4, einsum_qar_arhc,
      addInPlaceShape, splitLastShape, dimNeg4, attentionShape,
      einsum_rhqc_rhco, squeezeNeg1, squeezeNeg4, transposeNeg14, hloop,
      List.reverse_append]

/-- Witness for C9 at concrete dimensions (including a leading batch axis
`9` and track count `3`). -/
theorem attention_forward_track_axis_auto_unsqueeze_witness :
    (5 : ℕ) ≠ 1 ∧
    ((Attention.forwardShape 5 6 2 true 4 7 1
        ([9] ++ [3, 5]) ([9] ++ [8, 6]) ([9] ++ [2, 3, 8]) none
      = Except.ok ([9] ++ [3, 7], [9] ++ [3, 8, 2]))
    ∧ (Attention.forwardShape 5 6 2 true 4 7 3
        ([9] ++ [3, 5, 3]) ([9] ++ [8, 6, 3]) ([9] ++ [3, 2, 3, 8]) none
      = Except.ok ([9] ++ [3, 7, 3], [9] ++ [3, 3, 8, 2]))) :=
  ⟨by omega,
    attention_forward_track_axis_auto_unsqueeze 5 6 2 4 7 3 true [9] 3 8
      (by omega)⟩

/-- Witness for C10 on a concrete store of four one-element buffers. -/
theorem attention_no_argument_mutation_witness :
    ((0 : ℕ) < 4 ∧ (1 : ℕ) < 4 ∧ (2 : ℕ) < 4 ∧ (3 : ℕ) < 4) ∧
    (readB (((attentionStore (fun _ => 1)
        [[[1]], [[1]], [[1]], [[0]]] 0 1 2 3 1 none).toOption.getD
          ([], 0, 0)).1) 0 = readB [[[1]], [[1]], [[1]], [[0]]] 0) := by
  refine ⟨⟨by omega, by omega, by omega, by omega⟩, ?_⟩
  have h := attention_no_argument_mutation (fun _ => 1)
    [[[1]], [[1]], [[1]], [[0]]] 0 1 2 3 1 none
    ((attentionStore (fun _ => 1)
      [[[1]], [[1]], [[1]], [[0]]] 0 1 2 3 1 none).toOption.getD ([], 0, 0))
    (by simp) (by simp) (by simp) (by simp) (by rfl)
  exact h.1

/-- Witness for the amended C2 at chunk size `-1`. -/
theorem attention_invalid_chunk_size_witness :
    ((-1 : ℤ) < 0) ∧
    (attention (fun _ => 1) [[(1 : ℚ)]] [[1]] 1 [[1]] [[0]] (some (-1))
        = Except.error "split expects split_size be non-negative" ∧
      attention (fun _ => 1) [[(1 : ℚ)]] [[1]] 1 [[1]] [[0]] (some 0)
        = attention (fun _ => 1) [[(1 : ℚ)]] [[1]] 1 [[1]] [[0]] none) :=
  ⟨by norm_num,
    attention_invalid_chunk_size (fun _ => 1) [[(1 : ℚ)]] [[1]] 1 [[1]]
      [[0]] (-1) (by norm_num)⟩

/-! ### GeometricAttention (claims C4, C5) and masking (claim C8) -/

/-- C4.  GeometricAttention fusion formula: for every edge-feature tensor
and mask, the output of `GeometricAttention.forward` is the sum of four
terms — the gated outer-product result of track 0, the gated outer-product
result of track 1, the attended result of track 0, and the attended result
of track 1 with its two pairwise index axes swapped back to the original
orientation. -/
theorem geometricAttention_fusion (rexp rsqrt : ℚ → ℚ) (eps : ℚ)
    {L D H c : ℕ} (P : GeomAttnParams D H c)
    (edge_repr : Fin L → Fin L → Fin D → ℚ) (mask : Fin L → ℚ) :
    GeometricAttention.forward rexp rsqrt eps P edge_repr mask
      = fun i j d =>
          gatedOuterTrack rexp rsqrt eps P edge_repr mask 0 i j d
          + gatedOuterTrack rexp rsqrt eps P edge_repr mask 1 i j d
          + attendedTrack rexp rsqrt eps P edge_repr mask 0 i j d
          + attendedTrack rexp rsqrt eps P edge_repr mask 1 j i d := by
  funext i j d
  simp only [GeometricAttention.forward, gatedOuterTrack, attendedTrack,
    attnCore, cond_true]

/-- Counterexample to C5: `GeometricAttention.forward` applied to the full
transpose of a concrete edge tensor is not the transpose of the original
output — at `(0, 0, 0)` the transposed-input run yields `0` while the
original run yields `1/16`.  The two tracks carry independent learned
parameters, so swapping the tracks (which is what transposing the input
does) changes the result. -/
theorem geometricAttention_track_symmetry_fails :
    GeometricAttention.forward (fun _ => 1) (fun _ => 1) 0 cexP
        (fun a b => cexEdge b a) cexMask 0 0 0
      ≠ GeometricAttention.forward (fun _ => 1) (fun _ => 1) 0 cexP
        cexEdge cexMask 0 0 0 := by
  have h1 : GeometricAttention.forward (fun _ => 1) (fun _ => 1) 0 cexP
      (fun a b => cexEdge b a) cexMask 0 0 0 = 0 := by
    norm_num [GeometricAttention.forward, edgeStack, attnCore, cexP,
      cexZeroAP, cexEdge, cexMask, normalizeF, meanF, varF, sigmoid,
      softmaxF, maxF, rowMax, mask2bias, Fin.sum_univ_two, List.ofFn_succ]
  have h2 : GeometricAttention.forward (fun _ => 1) (fun _ => 1) 0 cexP
      cexEdge cexMask 0 0 0 = 1 / 16 := by
    norm_num [GeometricAttention.forward, edgeStack, attnCore, cexP,
      cexZeroAP, cexEdge, cexMask, normalizeF, meanF, varF, sigmoid,
      softmaxF, maxF, rowMax, mask2bias, Fin.sum_univ_two, List.ofFn_succ]
  rw [h1, h2]
  norm_num

/-- C5 as amended: transposing the edge tensor corresponds exactly to
swapping the two tracks of the stacked tensor built at lines 529-532 —
track 1 of the stack is the transpose of track 0, and stacking the
transposed input produces the track-swap of the original stack.  The
forward outputs themselves are not exact transposes of each other in
general (`geometricAttention_track_symmetry_fails`), because the two
tracks are consumed by independent per-track parameters. -/
theorem edgeStack_transpose_swaps_tracks (rsqrt : ℚ → ℚ) (eps : ℚ)
    {L D : ℕ} (edge_repr : Fin L → Fin L → Fin D → ℚ) :
    (∀ i j d, edgeStack rsqrt eps edge_repr i j d 1
      = edgeStack rsqrt eps edge_repr j i d 0) ∧
    edgeStack rsqrt eps (fun a b => edge_repr b a)
      = fun i j d r =>
          edgeStack rsqrt eps edge_repr i j d (if r = 0 then 1 else 0) := by
  constructor
  · intro i j d
    simp [edgeStack]
  · funext i j d r
    fin_cases r <;> simp [edgeStack]

/-- Post-softmax weights are nonnegative and the weight of index `p` is
bounded by `rexp (f p - f u)` for any other index `u` of the same slice. -/
theorem softmaxF_nonneg_le (rexp : ℚ → ℚ) (hpos : ∀ x, 0 < rexp x)
    (hhom : ∀ x y, rexp (x + y) = rexp x * rexp y) {n : ℕ} (f : Fin n → ℚ)
    (p u : Fin n) :
    0 ≤ softmaxF rexp f p ∧ softmaxF rexp f p ≤ rexp (f p - f u) := by
  have hS : 0 < ∑ j, rexp (f j - maxF f) :=
    Finset.sum_pos (fun j _ => hpos _) ⟨u, Finset.mem_univ u⟩
  constructor
  · exact div_nonneg (le_of_lt (hpos _)) (le_of_lt hS)
  · unfold softmaxF
    have hle : rexp (f u - maxF f) ≤ ∑ j, rexp (f j - maxF f) :=
      Finset.single_le_sum (fun j _ => le_of_lt (hpos _)) (Finset.mem_univ u)
    have h1 : rexp (f p - maxF f) / (∑ j, rexp (f j - maxF f))
        ≤ rexp (f p - maxF f) / rexp (f u - maxF f) :=
      div_le_div_of_nonneg_left (le_of_lt (hpos _)) (hpos _) hle
    refine le_trans h1 ?_
    have h2 : rexp (f p - maxF f)
        = rexp (f p - f u) * rexp (f u - maxF f) := by
      rw [← hhom]
      ring_nf
    rw [h2, mul_div_assoc, div_self (ne_of_gt (hpos _)), mul_one]

/-- C8.  Masking excludes masked keys: for every input to
`AttentionWEdgeBias.forward` whose mask is 0 at key position `p` and 1 at
some position `u`, the post-softmax attention weight assigned to key `p`
is nonnegative and at most `rexp (Δ - 10⁹)`, where `Δ` is the difference
of the two pre-mask logits — for the real exponential this is
astronomically small, i.e. the weight is approximately 0 for every query
position and every head. -/
theorem attentionWEdgeBias_masked_key_weight (rexp rsqrt : ℚ → ℚ)
    (eps : ℚ) {L dn de H c : ℕ} (P : EdgeBiasParams dn de H c) (g : Bool)
    (node : Fin L → Fin dn → ℚ) (edge : Fin L → Fin L → Fin de → ℚ)
    (mask : Fin L → ℚ) (hpos : ∀ x, 0 < rexp x)
    (hhom : ∀ x y, rexp (x + y) = rexp x * rexp y)
    (p u : Fin L) (hp : mask p = 0) (hu : mask u = 1) :
    ∀ jq h,
      0 ≤ AttentionWEdgeBias.attnWeights rexp rsqrt eps P g node edge mask
          jq p h ∧
      AttentionWEdgeBias.attnWeights rexp rsqrt eps P g node edge mask
          jq p h
        ≤ rexp (AttentionWEdgeBias.preMaskLogit rsqrt eps P node edge jq p h
            - AttentionWEdgeBias.preMaskLogit rsqrt eps P node edge jq u h
            - 10 ^ 9) := by
  intro jq h
  have hW : ∀ jk, AttentionWEdgeBias.attnWeights rexp rsqrt eps P g node
      edge mask jq jk h
      = softmaxF rexp
        (fun kk => AttentionWEdgeBias.preMaskLogit rsqrt eps P node edge
          jq kk h + mask2bias (mask kk)) jk := by
    intro jk
    simp only [AttentionWEdgeBias.attnWeights, attnCore,
      AttentionWEdgeBias.preMaskLogit]
    congr 1
    funext kk
    ring
  rw [hW p]
  obtain ⟨h0, hle⟩ := softmaxF_nonneg_le rexp hpos hhom
    (fun kk => AttentionWEdgeBias.preMaskLogit rsqrt eps P node edge jq kk h
      + mask2bias (mask kk)) p u
  refine ⟨h0, le_trans hle (le_of_eq ?_)⟩
  have hmp : mask2bias (mask p) = -(10 ^ 9 : ℚ) := by
    rw [hp]
    simp [mask2bias]
  have hmu : mask2bias (mask u) = 0 := by
    rw [hu]
    simp [mask2bias]
  rw [hmp, hmu]
  ring_nf

/-- Witness for C8 on a concrete instance: scalar dimensions, zero
parameters, and a length-2 mask excluding position 0. -/
theorem attentionWEdgeBias_masked_key_weight_witness :
    (∀ x : ℚ, 0 < (fun _ : ℚ => (1 : ℚ)) x) ∧
    (∀ x y : ℚ, (fun _ : ℚ => (1 : ℚ)) (x + y)
      = (fun _ : ℚ => (1 : ℚ)) x * (fun _ : ℚ => (1 : ℚ)) y) ∧
    cexMask01 0 = 0 ∧ cexMask01 1 = 1 ∧
    (∀ jq h,
      0 ≤ AttentionWEdgeBias.attnWeights (fun _ => 1) (fun _ => 1) 0 cexEBP
          false (fun _ _ => 0) (fun _ _ _ => 0) cexMask01 jq 0 h ∧
      AttentionWEdgeBias.attnWeights (fun _ => 1) (fun _ => 1) 0 cexEBP
          false (fun _ _ => 0) (fun _ _ _ => 0) cexMask01 jq 0 h
        ≤ (fun _ : ℚ => (1 : ℚ))
            (AttentionWEdgeBias.preMaskLogit (fun _ => 1) 0 cexEBP
              (fun _ _ => 0) (fun _ _ _ => 0) jq 0 h
            - AttentionWEdgeBias.preMaskLogit (fun _ => 1) 0 cexEBP
              (fun _ _ => 0) (fun _ _ _ => 0) jq 1 h - 10 ^ 9)) :=
  ⟨fun _ => one_pos, fun _ _ => (one_mul 1).symm, rfl, rfl,
    attentionWEdgeBias_masked_key_weight (fun _ => 1) (fun _ => 1) 0 cexEBP
      false (fun _ _ => 0) (fun _ _ _ => 0) cexMask01 (fun _ => one_pos)
      (fun _ _ => (one_mul 1).symm) 0 1 rfl rfl⟩

end OmegaFold
